import Mathlib

/-!
# gopher: the MongoDB model structs (`src/gopher/models.go`)

A shallow embedding of the structs of `models.go` and of the read-only
methods defined on them, followed by theorems about those methods.

Conventions of the embedding

* A Go `string` used only for equality tests (usernames) is a Lean `String`.
* `bson.ObjectId` is a Go string holding raw bytes; it is the list of its
  bytes here, so that `bson.ObjectIdHex` can be embedded as the hex decoder
  it is.
* `time.Time` is an integer number of milliseconds counted from Go's zero
  time, so that the zero value of the struct field is `0`.
* Go `int` fields are `Int`; no arithmetic is performed on them.
* Every field has its Go zero value as default, so `{}` is the zero struct.
* A method returning `*T` returns `Option T`: `none` is `nil`.
* A panic is `Except.error`.
* The process-wide handle `db` is an explicit `DB` argument.  A collection
  is the list of its documents in natural (insertion) order.
* The store is taken to answer every query: the one error a lookup reports
  is `ErrNotFound`.
* The bson encoder refuses an `ObjectId` that is not 12 bytes long, so a query
  whose filter holds such an id is never sent.  `FindWithId` embeds this for
  `LatestTopics`, `LatestReplies` and `Node`, which put an id of the receiver
  in the filter.  `Creater` and `Comment.Topic` compare identifiers as stored
  (`Find`), which is the same on every store whose documents carry 12-byte
  identifiers; the id `LatestReplier` looks up comes out of `ObjectIdHex` and
  is always 12 bytes.
-/

namespace gopher

/-! ## Constants and structs -/

/-- Go: `TypeTopic = 'T'`. -/
def TypeTopic : Int := 84
/-- Go: `TypeArticle = 'A'`. -/
def TypeArticle : Int := 65
/-- Go: `TypeSite = 'S'`. -/
def TypeSite : Int := 83
/-- Go: `TypePackage = 'P'`. -/
def TypePackage : Int := 80

/-- Go: `bson.ObjectId`, a string of raw bytes. -/
abbrev ObjectId := List Nat

/-- Go: `time.Time`, in milliseconds from the zero time. -/
abbrev Time := Int

/-- Go: `type User struct`. -/
structure User where
  Id_ : ObjectId := []
  Username : String := ""
  Password : String := ""
  Email : String := ""
  Website : String := ""
  Location : String := ""
  Tagline : String := ""
  Bio : String := ""
  Twitter : String := ""
  Weibo : String := ""
  JoinedAt : Time := 0
  Follow : List String := []
  Fans : List String := []
  IsSuperuser : Bool := false
  IsActive : Bool := false
  ValidateCode : String := ""
  ResetCode : String := ""
  Index : Int := 0
  deriving DecidableEq, Repr

/-- Go: `type Node struct`. -/
structure Node where
  Id_ : ObjectId := []
  Id : String := ""
  Name : String := ""
  Description : String := ""
  TopicCount : Int := 0
  deriving DecidableEq, Repr

/-- Go: `type Content struct`.  The Go field `Type` is `Type_` here. -/
structure Content where
  Id_ : ObjectId := []
  Type_ : Int := 0
  Title : String := ""
  Markdown : String := ""
  Html : String := ""
  CommentCount : Int := 0
  Hits : Int := 0
  CreatedAt : Time := 0
  CreatedBy : ObjectId := []
  UpdatedAt : Time := 0
  UpdatedBy : String := ""
  deriving DecidableEq, Repr

/-- Go: `type Topic struct`; the embedded `Content` is the field `Content`. -/
structure Topic where
  Content : Content := {}
  Id_ : ObjectId := []
  NodeId : ObjectId := []
  LatestReplierId : String := ""
  LatestRepliedAt : Time := 0
  deriving DecidableEq, Repr

/-- Go: `type Site struct`. -/
structure Site where
  Content : Content := {}
  Id_ : ObjectId := []
  Url : String := ""
  CategoryId : ObjectId := []
  deriving DecidableEq, Repr

/-- Go: `type Article struct`. -/
structure Article where
  Content : Content := {}
  Id_ : ObjectId := []
  CategoryId : ObjectId := []
  OriginalSource : String := ""
  OriginalUrl : String := ""
  deriving DecidableEq, Repr

/-- Go: `type Package struct`. -/
structure Package where
  Content : Content := {}
  Id_ : ObjectId := []
  CategoryId : ObjectId := []
  Url : String := ""
  deriving DecidableEq, Repr

/-- Go: `type Comment struct`.  The Go field `Type` is `Type_` here. -/
structure Comment where
  Id_ : ObjectId := []
  Type_ : Int := 0
  ContentId : ObjectId := []
  Markdown : String := ""
  Html : String := ""
  CreatedBy : ObjectId := []
  CreatedAt : Time := 0
  UpdatedBy : String := ""
  UpdatedAt : Time := 0
  deriving DecidableEq, Repr

/-! ## The store -/

/-- A document of the `contents` collection: the four content structs are all
written to it, each with its `Content` as the sub-document `content`. -/
inductive ContentDoc where
  | topic (t : Topic)
  | site (s : Site)
  | article (a : Article)
  | pkg (p : Package)
  deriving DecidableEq, Repr

/-- The sub-document `content` of a document of `contents`. -/
def ContentDoc.content : ContentDoc → Content
  | .topic t => t.Content
  | .site s => s.Content
  | .article a => a.Content
  | .pkg p => p.Content

/-- The key `_id` of a document of `contents`. -/
def ContentDoc.id : ContentDoc → ObjectId
  | .topic t => t.Id_
  | .site s => s.Id_
  | .article a => a.Id_
  | .pkg p => p.Id_

/-- Unmarshalling a document of `contents` into a `Topic`: the struct is
zeroed, then every key of the document that names a `Topic` field is copied.
Documents of the other kinds have `content` and `_id` but none of `nodeid`,
`latestreplierid`, `latestrepliedat`. -/
def ContentDoc.decodeTopic : ContentDoc → Topic
  | .topic t => t
  | .site s => { Content := s.Content, Id_ := s.Id_ }
  | .article a => { Content := a.Content, Id_ := a.Id_ }
  | .pkg p => { Content := p.Content, Id_ := p.Id_ }

/-- The collections read through the global `db`. -/
structure DB where
  users : List User := []
  nodes : List Node := []
  contents : List ContentDoc := []
  comments : List Comment := []
  deriving Repr

/-! ## The mgo query primitives -/

/-- The errors `One` reports in this model. -/
inductive MgoErr where
  | ErrNotFound
  deriving DecidableEq, Repr

/-- mgo: `c.Find(filter)`, the documents satisfying the filter, in natural
order. -/
def Find {α : Type} (c : List α) (filter : α → Bool) : List α :=
  c.filter filter

/-- Go `mgo/bson`: `ObjectId.Valid()`, the id is exactly 12 bytes long.  The
encoder marshals no other `ObjectId` ("ObjectIDs must be exactly 12 bytes
long"). -/
def ObjectId.Valid (o : ObjectId) : Bool :=
  o.length == 12

/-- mgo: `c.Find(filter)` for a filter document that holds the object id `o`.
The filter is marshalled when the query is run: if `o` does not marshal no
query is sent, and the operation run on the query (`One`, `All`) reports an
error and delivers no document.  That error is not told apart from
`ErrNotFound` here: the callers drop it. -/
def FindWithId {α : Type} (c : List α) (o : ObjectId) (filter : α → Bool) : List α :=
  if ObjectId.Valid o then Find c filter else []

/-- mgo: `q.Sort("-field")`, descending on an integer-valued field; documents
with equal keys keep their relative order. -/
def SortDesc {α : Type} (key : α → Int) (q : List α) : List α :=
  q.insertionSort (fun a b => key b ≤ key a)

/-- mgo: `q.Limit(n)`. -/
def Limit {α : Type} (n : Nat) (q : List α) : List α :=
  q.take n

/-- mgo: `q.One(&result)`.  The first document is unmarshalled into `result`
and the error is nil; with no document, `result` is left as it was and the
error is `ErrNotFound`. -/
def One {α β : Type} (q : List α) (decode : α → β) (result : β) : β × Option MgoErr :=
  match q with
  | [] => (result, some MgoErr.ErrNotFound)
  | d :: _ => (decode d, none)

/-- mgo: `q.All(&result)`, every document unmarshalled in order. -/
def All {α β : Type} (q : List α) (decode : α → β) : List β :=
  q.map decode

/-! ## bson.ObjectIdHex -/

/-- Go `encoding/hex`: the value of one hexadecimal digit. -/
def fromHexChar (c : Char) : Option Nat :=
  if '0' ≤ c ∧ c ≤ '9' then some (c.toNat - 48)
  else if 'a' ≤ c ∧ c ≤ 'f' then some (c.toNat - 97 + 10)
  else if 'A' ≤ c ∧ c ≤ 'F' then some (c.toNat - 65 + 10)
  else none

/-- Go `encoding/hex`: `hex.DecodeString`; `none` is any decoding error (a
character that is no hexadecimal digit, or an odd length). -/
def hexDecode : List Char → Option (List Nat)
  | [] => some []
  | [_] => none
  | a :: b :: rest =>
    match fromHexChar a, fromHexChar b, hexDecode rest with
    | some x, some y, some r => some ((x * 16 + y) :: r)
    | _, _, _ => none

/-- Go `mgo/bson`: `ObjectIdHex(s)` decodes `s` and panics unless the decoding
succeeds with exactly 12 bytes. -/
def ObjectIdHex (s : String) : Except String ObjectId :=
  match hexDecode s.data with
  | some d => if d.length = 12 then Except.ok d else Except.error "Invalid input to ObjectIdHex"
  | none => Except.error "Invalid input to ObjectIdHex"

/-! ## Methods of `models.go` -/

/-- Go: `func (u *User) LatestTopics() *[]Topic`.  The filter holds `u.Id_`;
the error of `All` is dropped. -/
def User.LatestTopics (db : DB) (u : User) : List Topic :=
  All (Limit 10 (SortDesc (fun d => d.content.CreatedAt)
    (FindWithId db.contents u.Id_
      (fun d => d.content.CreatedBy == u.Id_ && d.content.Type_ == TypeTopic))))
    ContentDoc.decodeTopic

/-- Go: `func (u *User) LatestReplies() *[]Comment`.  The filter holds
`u.Id_`; the error of `All` is dropped. -/
def User.LatestReplies (db : DB) (u : User) : List Comment :=
  All (Limit 10 (SortDesc (fun c => c.CreatedAt)
    (FindWithId db.comments u.Id_ (fun c => c.CreatedBy == u.Id_ && c.Type_ == TypeTopic))))
    id

/-- The loop shared by `IsFollowedBy` and `IsFans`:
`for _, username := range names { if username == who { return true } }; return false`. -/
def rangeContains (who : String) : List String → Bool
  | [] => false
  | username :: rest => if username == who then true else rangeContains who rest

/-- Go: `func (u *User) IsFollowedBy(who string) bool`. -/
def User.IsFollowedBy (u : User) (who : String) : Bool :=
  rangeContains who u.Fans

/-- Go: `func (u *User) IsFans(who string) bool`. -/
def User.IsFans (u : User) (who : String) : Bool :=
  rangeContains who u.Follow

/-- Go: `func (c *Content) CanEdit(username string) bool`. -/
def Content.CanEdit (db : DB) (c : Content) (username : String) : Bool :=
  let user : User := {}
  match One (Find db.users (fun u => u.Username == username)) id user with
  | (_, some _) => false
  | (user, none) => if user.IsSuperuser then true else c.CreatedBy == user.Id_

/-- Go: `func (t *Topic) Node() *Node`.  The filter holds `t.NodeId`; the
error of `One` is dropped.  The receiver is a pointer: the second component
is the Topic as the call leaves it. -/
def Topic.Node (db : DB) (t : Topic) : Option gopher.Node × Topic :=
  let node : gopher.Node := {}
  let r := One (FindWithId db.nodes t.NodeId (fun n => n.Id_ == t.NodeId)) id node
  (some r.1, t)

/-- Go: `func (t *Topic) LatestReplier() *User`. -/
def Topic.LatestReplier (db : DB) (t : Topic) : Except String (Option User) :=
  if t.LatestReplierId == "" then Except.ok none
  else
    let user : User := {}
    match ObjectIdHex t.LatestReplierId with
    | Except.error e => Except.error e
    | Except.ok oid =>
      match One (Find db.users (fun u => u.Id_ == oid)) id user with
      | (_, some _) => Except.ok none
      | (user, none) => Except.ok (some user)

/-- Go: `func (c *Comment) CanDelete(username string) bool`. -/
def Comment.CanDelete (db : DB) (_c : Comment) (username : String) : Bool :=
  let user : User := {}
  match One (Find db.users (fun u => u.Username == username)) id user with
  | (_, some _) => false
  | (user, none) => user.IsSuperuser

/-- Go: `func (c *Comment) Topic() *Topic`.  The error of `One` is dropped. -/
def Comment.Topic (db : DB) (c : Comment) : Option gopher.Topic :=
  let topic : gopher.Topic := {}
  let r := One (Find db.contents
    (fun d => d.id == c.ContentId && d.content.Type_ == TypeTopic)) ContentDoc.decodeTopic topic
  some r.1

/-! ## Vocabulary of the statements -/

/-- The point lookup of a collection `c` on the property `P` resolves to `d`:
`d` is the first document of `c`, in natural order, that has `P`. -/
def Resolves {α : Type} (c : List α) (P : α → Prop) (d : α) : Prop :=
  ∃ pre post, c = pre ++ d :: post ∧ P d ∧ ∀ v ∈ pre, ¬ P v

/-- A character is a hexadecimal digit, in either case. -/
def isHexChar (c : Char) : Prop :=
  ('0' ≤ c ∧ c ≤ '9') ∨ ('a' ≤ c ∧ c ≤ 'f') ∨ ('A' ≤ c ∧ c ≤ 'F')

instance (c : Char) : Decidable (isHexChar c) := by
  unfold isHexChar
  infer_instance

/-! ## Sample data -/

/-- A 12-byte object id ending in the byte `n`. -/
def sampleId (n : Nat) : ObjectId := [0, 0, 0, 0, 0, 0, 0, 0, 0, 0, 0, n]

/-- An ordinary user. -/
def alice : User := { Id_ := sampleId 1, Username := "alice", IsActive := true }
/-- Another ordinary user. -/
def bob : User := { Id_ := sampleId 2, Username := "bob", IsActive := true }
/-- A superuser. -/
def root : User :=
  { Id_ := sampleId 3, Username := "root-superuser", IsSuperuser := true, IsActive := true }

/-- A store with the three sample users and nothing else. -/
def sampleUsers : DB := { users := [alice, bob, root] }

/-! ## Lemmas on the query primitives -/

theorem One_Find_none {α β : Type} (c : List α) (p : α → Bool) (decode : α → β) (r : β)
    (h : ∀ d ∈ c, p d = false) :
    One (Find c p) decode r = (r, some MgoErr.ErrNotFound) := by
  have hnil : c.filter p = [] := by
    rw [List.filter_eq_nil_iff]
    intro d hd
    simp [h d hd]
  simp [One, Find, hnil]

theorem One_Find_first {α β : Type} (pre : List α) (d : α) (post : List α) (p : α → Bool)
    (decode : α → β) (r : β) (hd : p d = true) (hpre : ∀ v ∈ pre, p v = false) :
    One (Find (pre ++ d :: post) p) decode r = (decode d, none) := by
  have hnil : pre.filter p = [] := by
    rw [List.filter_eq_nil_iff]
    intro v hv
    simp [hpre v hv]
  simp [One, Find, List.filter_append, hnil, List.filter_cons, hd]

theorem One_Find_of_Resolves {α β : Type} (c : List α) (p : α → Bool) (P : α → Prop)
    (hP : ∀ x, p x = true ↔ P x) (decode : α → β) (r : β) (d : α)
    (h : Resolves c P d) :
    One (Find c p) decode r = (decode d, none) := by
  obtain ⟨pre, post, hc, hd, hpre⟩ := h
  subst hc
  apply One_Find_first
  · exact (hP d).mpr hd
  · intro v hv
    have := hpre v hv
    rw [← hP] at this
    simpa using this

theorem One_Find_of_forall_not {α β : Type} (c : List α) (p : α → Bool) (P : α → Prop)
    (hP : ∀ x, p x = true ↔ P x) (decode : α → β) (r : β)
    (h : ∀ d ∈ c, ¬ P d) :
    One (Find c p) decode r = (r, some MgoErr.ErrNotFound) := by
  apply One_Find_none
  intro d hd
  have := h d hd
  rw [← hP] at this
  simpa using this

theorem FindWithId_of_valid {α : Type} (c : List α) (o : ObjectId) (p : α → Bool)
    (h : o.length = 12) : FindWithId c o p = Find c p := by
  simp [FindWithId, ObjectId.Valid, h]

theorem FindWithId_of_not_valid {α : Type} (c : List α) (o : ObjectId) (p : α → Bool)
    (h : o.length ≠ 12) : FindWithId c o p = [] := by
  simp [FindWithId, ObjectId.Valid, h]

/-- Every lookup either misses every document or resolves to one. -/
theorem miss_or_Resolves {α : Type} (c : List α) (P : α → Prop) [DecidablePred P] :
    (∀ d ∈ c, ¬ P d) ∨ ∃ d, Resolves c P d := by
  induction c with
  | nil => left; simp
  | cons a t ih =>
    by_cases ha : P a
    · right
      exact ⟨a, [], t, rfl, ha, by simp⟩
    · rcases ih with h | ⟨d, pre, post, hc, hd, hpre⟩
      · left
        intro d hd
        rcases List.mem_cons.mp hd with rfl | hd
        · exact ha
        · exact h d hd
      · right
        refine ⟨d, a :: pre, post, by simp [hc], hd, ?_⟩
        intro v hv
        rcases List.mem_cons.mp hv with rfl | hv
        · exact ha
        · exact hpre v hv

theorem Resolves_mem {α : Type} {c : List α} {P : α → Prop} {d : α} (h : Resolves c P d) :
    d ∈ c ∧ P d := by
  obtain ⟨pre, post, hc, hd, _⟩ := h
  subst hc
  exact ⟨by simp, hd⟩

theorem rangeContains_iff (who : String) (names : List String) :
    rangeContains who names = true ↔ who ∈ names := by
  induction names with
  | nil => simp [rangeContains]
  | cons a t ih =>
    by_cases h : a = who
    · simp [rangeContains, h]
    · have h2 : ¬ who = a := fun e => h e.symm
      simp [rangeContains, h, h2, ih]

/-! ## Authorization predicates -/

/-- C1: `Content.CanEdit(username)` is false when no stored user has that
username; when the lookup resolves to `u` it is true exactly when `u` is a
superuser or `u` is the creator of the content. -/
theorem CanEdit_spec (db : DB) (c : Content) (username : String) :
    ((∀ u ∈ db.users, u.Username ≠ username) → c.CanEdit db username = false) ∧
    (∀ u, Resolves db.users (fun v => v.Username = username) u →
      (c.CanEdit db username = true ↔ (u.IsSuperuser = true ∨ u.Id_ = c.CreatedBy))) := by
  constructor
  · intro h
    have := One_Find_of_forall_not db.users (fun u => u.Username == username)
      (fun v => v.Username = username) (by simp) id ({} : User) h
    simp [Content.CanEdit, this]
  · intro u hu
    have := One_Find_of_Resolves db.users (fun u => u.Username == username)
      (fun v => v.Username = username) (by simp) id ({} : User) u hu
    simp only [Content.CanEdit, this, id]
    by_cases hs : u.IsSuperuser = true
    · simp [hs]
    · simp [hs]
      exact eq_comm

/-- C1, at the sample store: alice may edit what she created. -/
theorem CanEdit_spec_witness :
    Content.CanEdit sampleUsers { CreatedBy := sampleId 1 } "alice" = true :=
  ((CanEdit_spec sampleUsers { CreatedBy := sampleId 1 } "alice").2 alice
    ⟨[], [bob, root], rfl, rfl, by simp⟩).mpr (Or.inr rfl)

/-- C2: `Comment.CanDelete(username)` is true exactly when the username
resolves to a stored user who is a superuser; it is false for a creator of the
comment who is no superuser, and false when no stored user has the username. -/
theorem CanDelete_spec (db : DB) (c : Comment) (username : String) :
    (c.CanDelete db username = true ↔
      ∃ u, Resolves db.users (fun v => v.Username = username) u ∧ u.IsSuperuser = true) ∧
    (∀ u, Resolves db.users (fun v => v.Username = username) u →
      u.IsSuperuser = false → u.Id_ = c.CreatedBy → c.CanDelete db username = false) ∧
    ((∀ u ∈ db.users, u.Username ≠ username) → c.CanDelete db username = false) := by
  have hmiss : (∀ u ∈ db.users, u.Username ≠ username) → c.CanDelete db username = false := by
    intro h
    have := One_Find_of_forall_not db.users (fun u => u.Username == username)
      (fun v => v.Username = username) (by simp) id ({} : User) h
    simp [Comment.CanDelete, this]
  have hhit : ∀ u, Resolves db.users (fun v => v.Username = username) u →
      c.CanDelete db username = u.IsSuperuser := by
    intro u hu
    have := One_Find_of_Resolves db.users (fun u => u.Username == username)
      (fun v => v.Username = username) (by simp) id ({} : User) u hu
    simp [Comment.CanDelete, this]
  refine ⟨?_, ?_, hmiss⟩
  · constructor
    · intro h
      rcases miss_or_Resolves db.users (fun v => v.Username = username) with hm | ⟨u, hu⟩
      · rw [hmiss hm] at h
        exact absurd h (by simp)
      · exact ⟨u, hu, by rw [← hhit u hu]; exact h⟩
    · rintro ⟨u, hu, hs⟩
      rw [hhit u hu]
      exact hs
  · intro u hu hs _
    rw [hhit u hu]
    exact hs

/-- C2, at the sample store: alice, no superuser, may not delete her own
comment. -/
theorem CanDelete_spec_witness :
    Comment.CanDelete sampleUsers { CreatedBy := sampleId 1 } "alice" = false :=
  (CanDelete_spec sampleUsers { CreatedBy := sampleId 1 } "alice").2.1 alice
    ⟨[], [bob, root], rfl, rfl, by simp⟩ rfl rfl

/-! ## The social graph -/

/-- C9: `U.IsFollowedBy(W)` is true exactly when `W` is an element of `U.Fans`;
so it is false on an empty `Fans` and true when `W` occurs twice. -/
theorem IsFollowedBy_iff (u : User) (w : String) :
    (u.IsFollowedBy w = true ↔ w ∈ u.Fans) ∧
    User.IsFollowedBy { u with Fans := [] } w = false ∧
    (∀ a b c : List String,
      User.IsFollowedBy { u with Fans := a ++ w :: b ++ w :: c } w = true) := by
  refine ⟨rangeContains_iff w u.Fans, ?_, ?_⟩
  · simp [User.IsFollowedBy, rangeContains]
  · intro a b c
    simp [User.IsFollowedBy, rangeContains_iff]

/-- C10: `U.IsFans(W)` is true exactly when `W` is an element of `U.Follow`,
and replacing `U.Fans` by any other list does not change the result. -/
theorem IsFans_iff (u : User) (w : String) :
    (u.IsFans w = true ↔ w ∈ u.Follow) ∧
    (∀ fans : List String, User.IsFans { u with Fans := fans } w = u.IsFans w) := by
  refine ⟨rangeContains_iff w u.Follow, ?_⟩
  intro fans
  simp [User.IsFans]

/-! ## The "latest ten" views -/

theorem SortDesc_perm {α : Type} (key : α → Int) (q : List α) :
    (SortDesc key q).Perm q :=
  List.perm_insertionSort _ q

theorem SortDesc_sorted {α : Type} (key : α → Int) (q : List α) :
    (SortDesc key q).Pairwise (fun a b => key b ≤ key a) := by
  haveI : IsTotal α (fun a b => key b ≤ key a) := ⟨fun a b => le_total (key b) (key a)⟩
  haveI : IsTrans α (fun a b => key b ≤ key a) := ⟨fun _ _ _ hab hbc => le_trans hbc hab⟩
  exact List.sorted_insertionSort (fun a b => key b ≤ key a) q

/-- The query `Find(filter).Sort("-key").Limit(n)`: what it keeps and what it
leaves out. -/
theorem latest_spec {α : Type} (key : α → Int) (c : List α) (p : α → Bool) (n : Nat) :
    (Limit n (SortDesc key (Find c p))).length ≤ n ∧
    (∀ x ∈ Limit n (SortDesc key (Find c p)), x ∈ c ∧ p x = true) ∧
    (Limit n (SortDesc key (Find c p))).Pairwise (fun a b => key b ≤ key a) ∧
    ∃ rest, (Limit n (SortDesc key (Find c p)) ++ rest).Perm (c.filter p) ∧
      (∀ k ∈ Limit n (SortDesc key (Find c p)), ∀ d ∈ rest, key d ≤ key k) ∧
      (rest ≠ [] → (Limit n (SortDesc key (Find c p))).length = n) := by
  have hsorted := SortDesc_sorted key (Find c p)
  have hperm := SortDesc_perm key (Find c p)
  refine ⟨?_, ?_, ?_, ?_⟩
  · simp only [Limit, List.length_take]
    exact Nat.min_le_left _ _
  · intro x hx
    have hx1 : x ∈ SortDesc key (Find c p) := List.mem_of_mem_take hx
    have hx2 : x ∈ Find c p := hperm.mem_iff.mp hx1
    simpa [Find, List.mem_filter] using hx2
  · exact hsorted.sublist (List.take_sublist n _)
  · refine ⟨(SortDesc key (Find c p)).drop n, ?_, ?_, ?_⟩
    · simp only [Limit, List.take_append_drop]
      exact hperm
    · have h2 : ((SortDesc key (Find c p)).take n ++ (SortDesc key (Find c p)).drop n).Pairwise
          (fun a b => key b ≤ key a) := by
        rw [List.take_append_drop]
        exact hsorted
      intro k hk d hd
      exact (List.pairwise_append.mp h2).2.2 k hk d hd
    · intro hne
      simp only [Limit, List.length_take]
      have hlen : n < (SortDesc key (Find c p)).length := by
        by_contra hcon
        exact hne (List.drop_eq_nil_of_le (Nat.le_of_not_lt hcon))
      omega

theorem decodeTopic_Content (d : ContentDoc) : d.decodeTopic.Content = d.content := by
  cases d <;> rfl

/-- C4: for a user whose identifier is a well-formed object id,
`User.LatestTopics()` returns at most 10 items, each decoded from a stored
content document of kind Topic created by the user, in non-increasing order of
creation time; the documents of that kind and creator are the returned ones
together with the left out ones, no left out one is newer than a returned one,
and one is left out only when 10 are returned; with no such document the
result is empty. -/
theorem LatestTopics_spec (db : DB) (u : User) (hid : u.Id_.length = 12) :
    (u.LatestTopics db).length ≤ 10 ∧
    (∀ t ∈ u.LatestTopics db, t.Content.Type_ = TypeTopic ∧ t.Content.CreatedBy = u.Id_ ∧
      ∃ d ∈ db.contents, d.decodeTopic = t) ∧
    (u.LatestTopics db).Pairwise (fun a b => b.Content.CreatedAt ≤ a.Content.CreatedAt) ∧
    (∃ kept rest : List ContentDoc,
      u.LatestTopics db = kept.map ContentDoc.decodeTopic ∧
      (kept ++ rest).Perm (db.contents.filter
        (fun d => decide (d.content.CreatedBy = u.Id_ ∧ d.content.Type_ = TypeTopic))) ∧
      (∀ k ∈ kept, ∀ d ∈ rest, d.content.CreatedAt ≤ k.content.CreatedAt) ∧
      (rest ≠ [] → kept.length = 10)) ∧
    ((∀ d ∈ db.contents, ¬ (d.content.CreatedBy = u.Id_ ∧ d.content.Type_ = TypeTopic)) →
      u.LatestTopics db = []) := by
  have hfilter : (fun d : ContentDoc =>
      decide (d.content.CreatedBy = u.Id_ ∧ d.content.Type_ = TypeTopic)) =
      (fun d => d.content.CreatedBy == u.Id_ && d.content.Type_ == TypeTopic) := by
    funext d
    by_cases h1 : d.content.CreatedBy = u.Id_ <;>
      by_cases h2 : d.content.Type_ = TypeTopic <;> simp [h1, h2]
  have hdef : u.LatestTopics db =
      (Limit 10 (SortDesc (fun d : ContentDoc => d.content.CreatedAt)
        (Find db.contents
          (fun d => d.content.CreatedBy == u.Id_ && d.content.Type_ == TypeTopic)))).map
        ContentDoc.decodeTopic := by
    simp only [User.LatestTopics, All, FindWithId_of_valid _ _ _ hid]
  obtain ⟨hlen, hmem, hsorted, rest, hperm, hrest, hfull⟩ :=
    latest_spec (fun d : ContentDoc => d.content.CreatedAt) db.contents
      (fun d => d.content.CreatedBy == u.Id_ && d.content.Type_ == TypeTopic) 10
  rw [hdef]
  refine ⟨?_, ?_, ?_, ?_, ?_⟩
  · simpa using hlen
  · intro t ht
    simp only [List.mem_map] at ht
    obtain ⟨d, hd, rfl⟩ := ht
    obtain ⟨hdc, hdp⟩ := hmem d hd
    simp only [Bool.and_eq_true, beq_iff_eq] at hdp
    exact ⟨by rw [decodeTopic_Content]; exact hdp.2,
      by rw [decodeTopic_Content]; exact hdp.1, d, hdc, rfl⟩
  · simp only [List.pairwise_map, decodeTopic_Content]
    exact hsorted
  · refine ⟨_, rest, rfl, ?_, hrest, hfull⟩
    rw [hfilter]
    exact hperm
  · intro hnone
    have hnil : Find db.contents
        (fun d => d.content.CreatedBy == u.Id_ && d.content.Type_ == TypeTopic) = [] := by
      simp only [Find, List.filter_eq_nil_iff]
      intro d hd
      simpa using hnone d hd
    simp [Limit, SortDesc, hnil]

/-- For a receiver whose identifier is no well-formed object id the query of
`LatestTopics` is not sent, and the view is empty on every store. -/
theorem LatestTopics_of_not_valid (db : DB) (u : User) (hid : u.Id_.length ≠ 12) :
    u.LatestTopics db = [] := by
  simp [User.LatestTopics, All, Limit, SortDesc, FindWithId_of_not_valid _ _ _ hid]

/-- C5 as amended: for a user whose identifier is a well-formed object id,
`User.LatestReplies()` returns at most 10 comments, each a stored comment
created by the user whose kind tag is `TypeTopic`, in non-increasing order of
creation time; the stored comments of that creator and tag are the returned
ones together with the left out ones, no left out one is newer than a returned
one, and one is left out only when 10 are returned. -/
theorem LatestReplies_spec (db : DB) (u : User) (hid : u.Id_.length = 12) :
    (u.LatestReplies db).length ≤ 10 ∧
    (∀ c ∈ u.LatestReplies db, c ∈ db.comments ∧ c.CreatedBy = u.Id_ ∧ c.Type_ = TypeTopic) ∧
    (u.LatestReplies db).Pairwise (fun a b => b.CreatedAt ≤ a.CreatedAt) ∧
    (∃ rest : List Comment,
      (u.LatestReplies db ++ rest).Perm (db.comments.filter
        (fun c => decide (c.CreatedBy = u.Id_ ∧ c.Type_ = TypeTopic))) ∧
      (∀ k ∈ u.LatestReplies db, ∀ d ∈ rest, d.CreatedAt ≤ k.CreatedAt) ∧
      (rest ≠ [] → (u.LatestReplies db).length = 10)) := by
  have hfilter : (fun c : Comment => decide (c.CreatedBy = u.Id_ ∧ c.Type_ = TypeTopic)) =
      (fun c => c.CreatedBy == u.Id_ && c.Type_ == TypeTopic) := by
    funext c
    by_cases h1 : c.CreatedBy = u.Id_ <;> by_cases h2 : c.Type_ = TypeTopic <;> simp [h1, h2]
  have hdef : u.LatestReplies db = Limit 10 (SortDesc (fun c : Comment => c.CreatedAt)
      (Find db.comments (fun c => c.CreatedBy == u.Id_ && c.Type_ == TypeTopic))) := by
    simp [User.LatestReplies, All, FindWithId_of_valid _ _ _ hid]
  obtain ⟨hlen, hmem, hsorted, rest, hperm, hrest, hfull⟩ :=
    latest_spec (fun c : Comment => c.CreatedAt) db.comments
      (fun c => c.CreatedBy == u.Id_ && c.Type_ == TypeTopic) 10
  rw [hdef]
  refine ⟨hlen, ?_, hsorted, rest, ?_, hrest, hfull⟩
  · intro c hc
    obtain ⟨hdc, hdp⟩ := hmem c hc
    simp only [Bool.and_eq_true, beq_iff_eq] at hdp
    exact ⟨hdc, hdp.1, hdp.2⟩
  · rw [hfilter]
    exact hperm

/-- For a receiver whose identifier is no well-formed object id the query of
`LatestReplies` is not sent, and the view is empty on every store. -/
theorem LatestReplies_of_not_valid (db : DB) (u : User) (hid : u.Id_.length ≠ 12) :
    u.LatestReplies db = [] := by
  simp [User.LatestReplies, All, Limit, SortDesc, FindWithId_of_not_valid _ _ _ hid]

/-- A reply of bob to the topic of alice: its kind tag is `TypeTopic`. -/
def topicReply : Comment :=
  { Id_ := sampleId 11, Type_ := TypeTopic, ContentId := sampleId 4,
    CreatedBy := sampleId 2, CreatedAt := 6 }

/-- A reply of alice to an article: its kind tag is `TypeArticle`. -/
def articleReply : Comment :=
  { Id_ := sampleId 9, Type_ := TypeArticle, ContentId := sampleId 7,
    CreatedBy := sampleId 1, CreatedAt := 5 }

/-- C5 as stated fails: the only stored comment was created by alice, yet
`LatestReplies` returns nothing, so the comments created by alice are not the
returned ones together with ones left out behind ten returned ones. -/
theorem LatestReplies_counterexample :
    User.LatestReplies { comments := [articleReply] } alice = [] ∧
    articleReply.CreatedBy = alice.Id_ ∧
    ¬ ∃ rest : List Comment,
      (User.LatestReplies { comments := [articleReply] } alice ++ rest).Perm
        (List.filter (fun c => decide (c.CreatedBy = alice.Id_)) [articleReply]) ∧
      (rest ≠ [] → (User.LatestReplies { comments := [articleReply] } alice).length = 10) := by
  have h0 : User.LatestReplies { comments := [articleReply] } alice = [] := by decide
  refine ⟨h0, rfl, ?_⟩
  rintro ⟨rest, hperm, hfull⟩
  rw [h0] at hperm hfull
  have hf : List.filter (fun c => decide (c.CreatedBy = alice.Id_)) [articleReply]
      = [articleReply] := by decide
  rw [hf, List.nil_append] at hperm
  have hne : rest ≠ [] := by
    intro h
    rw [h] at hperm
    exact absurd hperm.length_eq (by simp)
  exact absurd (hfull hne) (by simp)

/-- C5 as amended, at a store holding a reply of bob to a topic and a reply
of alice to an article: what bob gets back are stored comments he created, of
kind tag `TypeTopic`. -/
theorem LatestReplies_spec_witness :
    bob.Id_.length = 12 ∧
    ∀ c ∈ User.LatestReplies { comments := [articleReply, topicReply] } bob,
      c ∈ [articleReply, topicReply] ∧ c.CreatedBy = bob.Id_ ∧ c.Type_ = TypeTopic :=
  ⟨by decide,
    (LatestReplies_spec { comments := [articleReply, topicReply] } bob (by decide)).2.1⟩

/-- The view evaluated on that store: bob gets his reply, alice gets none. -/
theorem LatestReplies_sample :
    User.LatestReplies { comments := [articleReply, topicReply] } bob = [topicReply] ∧
    User.LatestReplies { comments := [articleReply, topicReply] } alice = [] := by
  decide

/-- C4, at a store holding one article of alice and no topic: nothing is
returned. -/
theorem LatestTopics_spec_witness :
    User.LatestTopics
      { contents := [ContentDoc.article
        { Content := { Type_ := TypeArticle, CreatedBy := sampleId 1 }, Id_ := sampleId 7 }] }
      alice = [] :=
  (LatestTopics_spec
    { contents := [ContentDoc.article
      { Content := { Type_ := TypeArticle, CreatedBy := sampleId 1 }, Id_ := sampleId 7 }] }
    alice (by decide)).2.2.2.2 (by decide)

/-- A topic document created by the user whose identifier ends in `who`, at
time `at_`. -/
def topicDoc (n who : Nat) (at_ : Time) : ContentDoc :=
  ContentDoc.topic
    { Content := { Id_ := sampleId n, Type_ := TypeTopic, CreatedAt := at_,
                   CreatedBy := sampleId who },
      Id_ := sampleId n, NodeId := sampleId 5 }

/-- The view evaluated on a small store: the topics of alice come back newest
first, the topic of bob and the article of alice do not come back. -/
theorem LatestTopics_sample :
    (User.LatestTopics
      { contents := [topicDoc 20 1 1, topicDoc 21 2 9, topicDoc 22 1 3,
                     ContentDoc.article
                       { Content := { Type_ := TypeArticle, CreatedAt := 8,
                                      CreatedBy := sampleId 1 },
                         Id_ := sampleId 7 },
                     topicDoc 23 1 2] }
      alice).map (fun t => (t.Id_, t.Content.CreatedAt)) =
    [(sampleId 22, 3), (sampleId 23, 2), (sampleId 20, 1)] := by
  decide

/-! ## Resolvers that drop the error of `One` -/

/-- The node "general". -/
def general : Node := { Id_ := sampleId 5, Id := "general", Name := "General", TopicCount := 1 }

/-- A topic of alice under a node whose identifier ends in 6. -/
def orphanTopic : Topic :=
  { Content := { Id_ := sampleId 4, Type_ := TypeTopic, Title := "hello", CreatedAt := 3,
                 CreatedBy := sampleId 1 },
    Id_ := sampleId 4, NodeId := sampleId 6 }

/-- What `Topic.Node()` returns: the zero-valued Node when the query is not
sent or matches no stored node, the node the lookup resolves to otherwise;
the Topic is left as it was in every case. -/
theorem Node_eq (db : DB) (t : Topic) :
    ((t.NodeId.length ≠ 12 ∨ ∀ n ∈ db.nodes, n.Id_ ≠ t.NodeId) → t.Node db = (some {}, t)) ∧
    (∀ n, t.NodeId.length = 12 → Resolves db.nodes (fun m => m.Id_ = t.NodeId) n →
      t.Node db = (some n, t)) := by
  constructor
  · intro h
    by_cases hv : t.NodeId.length = 12
    · rcases h with h | h
      · exact absurd hv h
      · have := One_Find_of_forall_not db.nodes (fun n => n.Id_ == t.NodeId)
          (fun m => m.Id_ = t.NodeId) (by simp) id ({} : gopher.Node) h
        simp [Topic.Node, FindWithId_of_valid _ _ _ hv, this]
    · simp [Topic.Node, FindWithId_of_not_valid _ _ _ hv, One]
  · intro n hv hn
    have := One_Find_of_Resolves db.nodes (fun n => n.Id_ == t.NodeId)
      (fun m => m.Id_ = t.NodeId) (by simp) id ({} : gopher.Node) n hn
    simp [Topic.Node, FindWithId_of_valid _ _ _ hv, this]

/-- C7: when no stored node has the identifier `NodeId`, `Topic.Node()`
returns, its result is the zero-valued Node, and the Topic is left as it was;
the caller can tell that result apart from a found Node: on every store and
for every Topic, the method returns the zero-valued Node exactly when the
lookup finds no node, and whenever it finds one the result differs from the
result of the miss. -/
theorem Node_spec (db : DB) (t : Topic) (hmiss : ∀ n ∈ db.nodes, n.Id_ ≠ t.NodeId) :
    t.Node db = (some {}, t) ∧
    (∀ (db2 : DB) (t2 : Topic),
      ((t2.Node db2).1 = some {} ↔
        ¬ (t2.NodeId.length = 12 ∧ ∃ n ∈ db2.nodes, n.Id_ = t2.NodeId))) ∧
    (∀ (db2 : DB) (t2 : Topic) (n : gopher.Node),
      t2.NodeId.length = 12 → Resolves db2.nodes (fun m => m.Id_ = t2.NodeId) n →
      (t2.Node db2).1 = some n ∧ (t2.Node db2).2 = t2 ∧ (t2.Node db2).1 ≠ (t.Node db).1) := by
  have hres : t.Node db = (some {}, t) := (Node_eq db t).1 (Or.inr hmiss)
  have hhit : ∀ (db2 : DB) (t2 : Topic) (n : gopher.Node),
      t2.NodeId.length = 12 → Resolves db2.nodes (fun m => m.Id_ = t2.NodeId) n →
      t2.Node db2 = (some n, t2) ∧ n ≠ {} := by
    intro db2 t2 n hv hn
    refine ⟨(Node_eq db2 t2).2 n hv hn, ?_⟩
    intro hz
    have hidn : n.Id_ = t2.NodeId := (Resolves_mem hn).2
    rw [hz] at hidn
    rw [← hidn] at hv
    exact absurd hv (by decide)
  refine ⟨hres, ?_, ?_⟩
  · intro db2 t2
    constructor
    · rintro hz ⟨hv, n0, hn0, hid0⟩
      rcases miss_or_Resolves db2.nodes (fun m => m.Id_ = t2.NodeId) with hm | ⟨n, hn⟩
      · exact hm n0 hn0 hid0
      · obtain ⟨he, hne⟩ := hhit db2 t2 n hv hn
        rw [he] at hz
        exact hne (Option.some.inj hz)
    · intro hno
      have : t2.Node db2 = (some {}, t2) := by
        apply (Node_eq db2 t2).1
        by_cases hv : t2.NodeId.length = 12
        · right
          intro n hn hidn
          exact hno ⟨hv, n, hn, hidn⟩
        · exact Or.inl hv
      rw [this]
  · intro db2 t2 n hv hn
    obtain ⟨he, hne⟩ := hhit db2 t2 n hv hn
    rw [he, hres]
    refine ⟨rfl, rfl, ?_⟩
    intro heq
    exact hne (Option.some.inj heq)

/-- C7, at a store whose only node is not the one of the topic. -/
theorem Node_spec_witness :
    (∀ n ∈ [general], n.Id_ ≠ orphanTopic.NodeId) ∧
    Topic.Node { nodes := [general] } orphanTopic = (some {}, orphanTopic) :=
  ⟨by decide, (Node_spec { nodes := [general] } orphanTopic (by decide)).1⟩

/-- The method evaluated on a hit and on a miss of the same store. -/
theorem Node_sample :
    (Topic.Node { nodes := [general] } { orphanTopic with NodeId := sampleId 5 }).1 =
      some general ∧
    (Topic.Node { nodes := [general] } orphanTopic).1 = some {} := by
  decide

theorem fromHexChar_eq_none_iff (c : Char) : fromHexChar c = none ↔ ¬ isHexChar c := by
  unfold fromHexChar isHexChar
  by_cases h1 : '0' ≤ c ∧ c ≤ '9'
  · simp [h1]
  · by_cases h2 : 'a' ≤ c ∧ c ≤ 'f'
    · simp [h1, h2]
    · by_cases h3 : 'A' ≤ c ∧ c ≤ 'F'
      · simp [h1, h2, h3]
      · simp [h1, h2, h3]

theorem hexDecode_some : ∀ (l : List Char) (d : List Nat), hexDecode l = some d →
    d.length * 2 = l.length ∧ ∀ c ∈ l, isHexChar c
  | [], d, h => by
    simp only [hexDecode, Option.some.injEq] at h
    subst h
    simp
  | [_], d, h => by simp [hexDecode] at h
  | a :: b :: rest, d, h => by
    rw [hexDecode] at h
    cases ha : fromHexChar a with
    | none => simp [ha] at h
    | some x =>
      cases hb : fromHexChar b with
      | none => simp [ha, hb] at h
      | some y =>
        cases hr : hexDecode rest with
        | none => simp [ha, hb, hr] at h
        | some r =>
          simp only [ha, hb, hr, Option.some.injEq] at h
          subst h
          obtain ⟨hlen, hall⟩ := hexDecode_some rest r hr
          have hxa : isHexChar a := by
            by_contra hn
            rw [(fromHexChar_eq_none_iff a).mpr hn] at ha
            exact absurd ha (by simp)
          have hxb : isHexChar b := by
            by_contra hn
            rw [(fromHexChar_eq_none_iff b).mpr hn] at hb
            exact absurd hb (by simp)
          refine ⟨by simp only [List.length_cons]; omega, ?_⟩
          intro c hc
          rcases List.mem_cons.mp hc with rfl | hc
          · exact hxa
          · rcases List.mem_cons.mp hc with rfl | hc
            · exact hxb
            · exact hall c hc

theorem hexDecode_of_hex : ∀ (l : List Char), l.length % 2 = 0 → (∀ c ∈ l, isHexChar c) →
    ∃ d, hexDecode l = some d
  | [], _, _ => ⟨[], rfl⟩
  | [_], h, _ => by simp at h
  | a :: b :: rest, h, hall => by
    have hrest : rest.length % 2 = 0 := by
      simp only [List.length_cons] at h
      omega
    obtain ⟨r, hr⟩ := hexDecode_of_hex rest hrest
      (fun c hc => hall c (List.mem_cons_of_mem _ (List.mem_cons_of_mem _ hc)))
    have ha : isHexChar a := hall a (by simp)
    have hb : isHexChar b := hall b (by simp)
    cases hfa : fromHexChar a with
    | none => exact absurd ha ((fromHexChar_eq_none_iff a).mp hfa)
    | some x =>
      cases hfb : fromHexChar b with
      | none => exact absurd hb ((fromHexChar_eq_none_iff b).mp hfb)
      | some y => exact ⟨(x * 16 + y) :: r, by rw [hexDecode]; simp [hfa, hfb, hr]⟩

/-- `ObjectIdHex` returns exactly on the strings of 24 hexadecimal digits; on
every other string it panics. -/
theorem ObjectIdHex_ok_iff (s : String) :
    (∃ o, ObjectIdHex s = Except.ok o) ↔ (s.length = 24 ∧ ∀ c ∈ s.data, isHexChar c) := by
  constructor
  · rintro ⟨o, ho⟩
    unfold ObjectIdHex at ho
    cases hd : hexDecode s.data with
    | none => simp [hd] at ho
    | some d =>
      obtain ⟨hlen, hall⟩ := hexDecode_some s.data d hd
      by_cases h12 : d.length = 12
      · refine ⟨?_, hall⟩
        show s.data.length = 24
        omega
      · simp [hd, h12] at ho
  · rintro ⟨hlen, hall⟩
    have hlen2 : s.data.length = 24 := hlen
    obtain ⟨d, hd⟩ := hexDecode_of_hex s.data (by omega) hall
    have h12 : d.length = 12 := by
      have := (hexDecode_some s.data d hd).1
      omega
    exact ⟨d, by simp [ObjectIdHex, hd, h12]⟩

/-- C6 as amended: `Topic.LatestReplier()` returns (rather than panics)
exactly when `LatestReplierId` is empty or is 24 hexadecimal digits; it returns
none when `LatestReplierId` is empty; and when `LatestReplierId` decodes to an
identifier it returns none if no stored user has that identifier and the user
the lookup resolves to otherwise. -/
theorem LatestReplier_spec (db : DB) (t : Topic) :
    ((∃ r, t.LatestReplier db = Except.ok r) ↔
      (t.LatestReplierId = "" ∨
        (t.LatestReplierId.length = 24 ∧ ∀ c ∈ t.LatestReplierId.data, isHexChar c))) ∧
    (t.LatestReplierId = "" → t.LatestReplier db = Except.ok none) ∧
    (∀ o, t.LatestReplierId ≠ "" → ObjectIdHex t.LatestReplierId = Except.ok o →
      ((∀ u ∈ db.users, u.Id_ ≠ o) → t.LatestReplier db = Except.ok none) ∧
      (∀ u, Resolves db.users (fun v => v.Id_ = o) u →
        t.LatestReplier db = Except.ok (some u))) := by
  have hempty : t.LatestReplierId = "" → t.LatestReplier db = Except.ok none := by
    intro h
    simp [Topic.LatestReplier, h]
  have hdec : ∀ o, t.LatestReplierId ≠ "" → ObjectIdHex t.LatestReplierId = Except.ok o →
      ((∀ u ∈ db.users, u.Id_ ≠ o) → t.LatestReplier db = Except.ok none) ∧
      (∀ u, Resolves db.users (fun v => v.Id_ = o) u →
        t.LatestReplier db = Except.ok (some u)) := by
    intro o hne ho
    constructor
    · intro h
      have := One_Find_of_forall_not db.users (fun u => u.Id_ == o)
        (fun v => v.Id_ = o) (by simp) id ({} : User) h
      simp [Topic.LatestReplier, hne, ho, this]
    · intro u hu
      have := One_Find_of_Resolves db.users (fun u => u.Id_ == o)
        (fun v => v.Id_ = o) (by simp) id ({} : User) u hu
      simp [Topic.LatestReplier, hne, ho, this]
  refine ⟨?_, hempty, hdec⟩
  constructor
  · rintro ⟨r, hr⟩
    by_cases he : t.LatestReplierId = ""
    · exact Or.inl he
    · right
      apply (ObjectIdHex_ok_iff _).mp
      cases ho : ObjectIdHex t.LatestReplierId with
      | error e => simp [Topic.LatestReplier, he, ho] at hr
      | ok o => exact ⟨o, rfl⟩
  · rintro (he | hhex)
    · exact ⟨none, hempty he⟩
    · obtain ⟨o, ho⟩ := (ObjectIdHex_ok_iff _).mpr hhex
      have hne : t.LatestReplierId ≠ "" := by
        intro h
        rw [h] at hhex
        exact absurd hhex.1 (by decide)
      rcases miss_or_Resolves db.users (fun v => v.Id_ = o) with hm | ⟨u, hu⟩
      · exact ⟨none, (hdec o hne ho).1 hm⟩
      · exact ⟨some u, (hdec o hne ho).2 u hu⟩

/-- A topic whose latest replier is bob, by the hex form of his identifier. -/
def repliedTopic : Topic :=
  { Content := { Id_ := sampleId 4, Type_ := TypeTopic, Title := "hello", CommentCount := 1,
                 CreatedAt := 3, CreatedBy := sampleId 1 },
    Id_ := sampleId 4, NodeId := sampleId 5,
    LatestReplierId := "000000000000000000000002", LatestRepliedAt := 6 }

/-- C6 as amended, at the sample store: the latest replier resolves to bob. -/
theorem LatestReplier_spec_witness :
    Topic.LatestReplier sampleUsers repliedTopic = Except.ok (some bob) :=
  ((LatestReplier_spec sampleUsers repliedTopic).2.2 (sampleId 2) (by decide) rfl).2 bob
    ⟨[alice], [root], rfl, rfl, by decide⟩

/-- C6 as stated fails: with a `LatestReplierId` that is no hex identifier the
call panics in `bson.ObjectIdHex`. -/
theorem LatestReplier_counterexample :
    Topic.LatestReplier sampleUsers { repliedTopic with LatestReplierId := "bob" } =
      Except.error "Invalid input to ObjectIdHex" ∧
    ¬ ∃ r, Topic.LatestReplier sampleUsers { repliedTopic with LatestReplierId := "bob" } =
      Except.ok r := by
  have h : Topic.LatestReplier sampleUsers { repliedTopic with LatestReplierId := "bob" } =
      Except.error "Invalid input to ObjectIdHex" := rfl
  refine ⟨h, ?_⟩
  rintro ⟨r, hr⟩
  rw [h] at hr
  exact absurd hr (by simp)

end gopher
